import Mathlib

/-!
Verification of the sensor-data analysis engine
(`OceanMonitoringSystem/PythonAnalysisService/analysis_server.py`).

The engine receives a batch of floating-point readings, removes non-finite
entries (NaN, plus or minus infinity), computes descriptive statistics
(mean, min, max, count, median, sample standard deviation) over the cleaned
batch, derives a 0-10 data-quality score, and returns either a populated
response or a structured `InvalidArgument` error.

Floating-point readings are modelled as either a finite rational or one of
the three non-finite IEEE values; finite arithmetic is idealised over ℚ,
with the standard deviation living in ℝ because it takes a square root.
-/

namespace OceanAnalysis

/-- A floating-point input value: a finite number (idealised as a rational)
or one of the non-finite IEEE-754 values NaN, plus infinity, minus infinity. -/
inductive FloatVal where
  | finite (q : ℚ)
  | nan
  | posInf
  | negInf
deriving DecidableEq, Repr

/-- Embeds Python `math.isnan`. -/
def FloatVal.isnan : FloatVal → Bool
  | .nan => true
  | _ => false

/-- Embeds Python `math.isinf`. -/
def FloatVal.isinf : FloatVal → Bool
  | .posInf => true
  | .negInf => true
  | _ => false

/-- The numeric value of a finite reading (non-finite markers map to a junk
value that the cleaning step never lets through). -/
def FloatVal.toRat : FloatVal → ℚ
  | .finite q => q
  | _ => 0

/-- Embeds the list comprehension
`clean_values = [v for v in values if not (math.isnan(v) or math.isinf(v))]`
at the level of `FloatVal` entries (analysis_server.py line 45). -/
def cleanFloats (values : List FloatVal) : List FloatVal :=
  values.filter (fun v => !(v.isnan || v.isinf))

/-- The cleaned batch as numbers: the finite survivors of the comprehension,
read off as rationals. -/
def cleanValues (values : List FloatVal) : List ℚ :=
  (cleanFloats values).map FloatVal.toRat

/-- The count of entries removed by cleaning for being NaN or infinite. -/
def discarded (values : List FloatVal) : ℕ :=
  (values.filter (fun v => v.isnan || v.isinf)).length

/-- Embeds Python `statistics.mean`: the sum divided by the length. -/
def mean (xs : List ℚ) : ℚ := xs.sum / xs.length

/-- Embeds Python builtin `min` over a non-empty list. -/
def listMin : List ℚ → ℚ
  | [] => 0
  | x :: xs => xs.foldl min x

/-- Embeds Python builtin `max` over a non-empty list. -/
def listMax : List ℚ → ℚ
  | [] => 0
  | x :: xs => xs.foldl max x

/-- Embeds Python `statistics.median`: sort, then take the middle element
(odd length) or the mean of the two middle elements (even length). -/
def median (xs : List ℚ) : ℚ :=
  let s := xs.insertionSort (· ≤ ·)
  let n := xs.length
  if n % 2 = 1 then s.getD (n / 2) 0
  else (s.getD (n / 2 - 1) 0 + s.getD (n / 2) 0) / 2

/-- The sample variance with Bessel's correction (divisor `n - 1`), the
square of Python `statistics.stdev`. -/
def sampleVariance (xs : List ℚ) : ℚ :=
  (xs.map (fun x => (x - mean xs) ^ 2)).sum / (xs.length - 1)

/-- Embeds the standard-deviation computation of analysis_server.py
lines 61-63: `std_dev = 0.0; if count > 1: std_dev = statistics.stdev(...)`. -/
noncomputable def stdDev (xs : List ℚ) : ℝ :=
  if 1 < xs.length then Real.sqrt (sampleVariance xs) else 0

/-- The gRPC status codes the servicer sets. -/
inductive StatusCode where
  | invalid_argument
  | internal_error
deriving DecidableEq, Repr

/-- A structured failure: the status code set on the gRPC context together
with the detail message. -/
structure AnalysisError where
  kind : StatusCode
  detail : String
deriving DecidableEq, Repr

/-- Embeds the wire response `SensorDataAnalysisResponse` as the servicer
populates it (analysis_server.py lines 78-85): exactly six fields. -/
structure Response where
  average : ℚ
  min : ℚ
  max : ℚ
  std_dev : ℝ
  count : ℕ
  median : ℚ

/-- Embeds `_calculate_data_quality(values, original_count)`
(analysis_server.py lines 93-121), including the original `if len < 10 ... elif
len < 5` branch ordering. `0.7 = 7/10`, `0.4 = 2/5`, `1.1 = 11/10`. -/
def calculate_data_quality (values : List ℚ) (original_count : ℕ) : ℚ :=
  let s1 : ℚ := 10
  let s2 : ℚ :=
    if 0 < original_count then s1 * ((values.length : ℚ) / original_count) else s1
  let s3 : ℚ :=
    if values.length < 10 then s2 * (7 / 10)
    else if values.length < 5 then s2 * (2 / 5)
    else s2
  let s4 : ℚ :=
    if 100 ≤ values.length then min 10 (s3 * (11 / 10)) else s3
  max 0 (min 10 s4)

/-- The validation-and-cleaning stage of `AnalyzeSensorData` (analysis_server.py
lines 36-51): reject an empty batch, clean, reject a batch that cleaned to
empty, otherwise hand the cleaned values onwards. -/
def analyzeClean (request : List FloatVal) : Except AnalysisError (List ℚ) :=
  if request.isEmpty then
    .error ⟨.invalid_argument, "No values provided for analysis"⟩
  else if (cleanValues request).isEmpty then
    .error ⟨.invalid_argument, "No valid values found after cleaning data"⟩
  else .ok (cleanValues request)

/-- Assembles the success response from the cleaned batch, mirroring the
statistics block and the response constructor of `AnalyzeSensorData`. -/
noncomputable def mkResponse (clean_values : List ℚ) : Response where
  average := mean clean_values
  min := listMin clean_values
  max := listMax clean_values
  std_dev := stdDev clean_values
  count := clean_values.length
  median := median clean_values

/-- Embeds the full `AnalyzeSensorData` remote operation: validation and
cleaning followed by statistics, as an explicit success-or-error value. -/
noncomputable def AnalyzeSensorData (request : List FloatVal) :
    Except AnalysisError Response :=
  (analyzeClean request).map mkResponse

/-- The quality score the servicer computes for a request:
`self._calculate_data_quality(clean_values, len(values))`
(analysis_server.py line 75). It is logged but not placed in the response. -/
def analysisQuality (request : List FloatVal) : ℚ :=
  calculate_data_quality (cleanValues request) request.length

/-- The list of all field values carried by a wire response, each read as a
real number; a quantity reaches the caller only if it appears here. -/
noncomputable def responseValues (r : Response) : List ℝ :=
  [(r.average : ℝ), (r.min : ℝ), (r.max : ℝ), r.std_dev, (r.count : ℝ), (r.median : ℝ)]

/-! ### Helper lemmas about the statistics kernel -/

theorem foldl_min_le_init (xs : List ℚ) (a : ℚ) : xs.foldl min a ≤ a := by
  induction xs generalizing a with
  | nil => simp
  | cons x xs ih => exact le_trans (ih (min a x)) (min_le_left a x)

theorem foldl_min_le_mem (xs : List ℚ) (a y : ℚ) (hy : y ∈ xs) :
    xs.foldl min a ≤ y := by
  induction xs generalizing a with
  | nil => cases hy
  | cons x xs ih =>
    rcases List.mem_cons.mp hy with h | h
    · subst h
      exact le_trans (foldl_min_le_init xs _) (min_le_right a y)
    · exact ih (min a x) h

theorem foldl_min_mem (xs : List ℚ) (a : ℚ) :
    xs.foldl min a = a ∨ xs.foldl min a ∈ xs := by
  induction xs generalizing a with
  | nil => left; rfl
  | cons x xs ih =>
    rcases ih (min a x) with h | h
    · rcases min_cases a x with ⟨he, _⟩ | ⟨he, _⟩
      · left; rw [List.foldl_cons, h, he]
      · right; rw [List.foldl_cons, h, he]; exact List.mem_cons_self x xs
    · right; exact List.mem_cons_of_mem x h

theorem foldl_max_init_le (xs : List ℚ) (a : ℚ) : a ≤ xs.foldl max a := by
  induction xs generalizing a with
  | nil => simp
  | cons x xs ih => exact le_trans (le_max_left a x) (ih (max a x))

theorem foldl_max_mem_le (xs : List ℚ) (a y : ℚ) (hy : y ∈ xs) :
    y ≤ xs.foldl max a := by
  induction xs generalizing a with
  | nil => cases hy
  | cons x xs ih =>
    rcases List.mem_cons.mp hy with h | h
    · subst h
      exact le_trans (le_max_right a y) (foldl_max_init_le xs _)
    · exact ih (max a x) h

theorem foldl_max_mem (xs : List ℚ) (a : ℚ) :
    xs.foldl max a = a ∨ xs.foldl max a ∈ xs := by
  induction xs generalizing a with
  | nil => left; rfl
  | cons x xs ih =>
    rcases ih (max a x) with h | h
    · rcases max_cases a x with ⟨he, _⟩ | ⟨he, _⟩
      · left; rw [List.foldl_cons, h, he]
      · right; rw [List.foldl_cons, h, he]; exact List.mem_cons_self x xs
    · right; exact List.mem_cons_of_mem x h

theorem listMin_le_mem (xs : List ℚ) (y : ℚ) (hy : y ∈ xs) : listMin xs ≤ y := by
  cases xs with
  | nil => cases hy
  | cons x xs =>
    rcases List.mem_cons.mp hy with h | h
    · subst h; exact foldl_min_le_init xs y
    · exact foldl_min_le_mem xs x y h

theorem listMin_mem (xs : List ℚ) (hne : xs ≠ []) : listMin xs ∈ xs := by
  cases xs with
  | nil => exact absurd rfl hne
  | cons x xs =>
    rcases foldl_min_mem xs x with h | h
    · rw [listMin, h]; exact List.mem_cons_self x xs
    · exact List.mem_cons_of_mem x h

theorem mem_le_listMax (xs : List ℚ) (y : ℚ) (hy : y ∈ xs) : y ≤ listMax xs := by
  cases xs with
  | nil => cases hy
  | cons x xs =>
    rcases List.mem_cons.mp hy with h | h
    · subst h; exact foldl_max_init_le xs y
    · exact foldl_max_mem_le xs x y h

theorem listMax_mem (xs : List ℚ) (hne : xs ≠ []) : listMax xs ∈ xs := by
  cases xs with
  | nil => exact absurd rfl hne
  | cons x xs =>
    rcases foldl_max_mem xs x with h | h
    · rw [listMax, h]; exact List.mem_cons_self x xs
    · exact List.mem_cons_of_mem x h

theorem mean_bounds (xs : List ℚ) (hne : xs ≠ []) :
    listMin xs ≤ mean xs ∧ mean xs ≤ listMax xs := by
  have hlen : 0 < (xs.length : ℚ) := by
    have := List.length_pos.mpr hne
    exact_mod_cast this
  have hlow : (xs.length : ℚ) * listMin xs ≤ xs.sum := by
    have := List.card_nsmul_le_sum xs (listMin xs) (fun y hy => listMin_le_mem xs y hy)
    simpa [nsmul_eq_mul] using this
  have hhigh : xs.sum ≤ (xs.length : ℚ) * listMax xs := by
    have := List.sum_le_card_nsmul xs (listMax xs) (fun y hy => mem_le_listMax xs y hy)
    simpa [nsmul_eq_mul] using this
  constructor
  · rw [mean, le_div_iff₀ hlen]
    linarith
  · rw [mean, div_le_iff₀ hlen]
    linarith

theorem sorted_of_median (xs : List ℚ) :
    (xs.insertionSort (· ≤ ·)).Perm xs ∧
      (xs.insertionSort (· ≤ ·)).Sorted (· ≤ ·) ∧
      (xs.insertionSort (· ≤ ·)).length = xs.length :=
  ⟨List.perm_insertionSort _ xs, List.sorted_insertionSort _ xs,
    (List.perm_insertionSort _ xs).length_eq⟩

theorem median_eq_of_sorted (xs s : List ℚ) (hp : s.Perm xs)
    (hs : s.Sorted (· ≤ ·)) :
    median xs = (if xs.length % 2 = 1 then s.getD (xs.length / 2) 0
      else (s.getD (xs.length / 2 - 1) 0 + s.getD (xs.length / 2) 0) / 2) := by
  have heq : s = xs.insertionSort (· ≤ ·) :=
    List.eq_of_perm_of_sorted (hp.trans (List.perm_insertionSort _ xs).symm) hs
      (List.sorted_insertionSort _ xs)
  rw [median, heq]

theorem median_bounds (xs : List ℚ) (hne : xs ≠ []) :
    listMin xs ≤ median xs ∧ median xs ≤ listMax xs := by
  obtain ⟨hp, hs, hlen⟩ := sorted_of_median xs
  have hpos : 0 < xs.length := List.length_pos.mpr hne
  have hmem : ∀ i, i < xs.length →
      (xs.insertionSort (· ≤ ·)).getD i 0 ∈ xs := by
    intro i hi
    have hi' : i < (xs.insertionSort (· ≤ ·)).length := by omega
    rw [List.getD_eq_getElem _ _ hi']
    exact hp.mem_iff.mp (List.getElem_mem hi')
  rw [median]
  by_cases hodd : xs.length % 2 = 1
  · simp only [hodd, if_true]
    have h := hmem (xs.length / 2) (by omega)
    exact ⟨listMin_le_mem xs _ h, mem_le_listMax xs _ h⟩
  · simp only [hodd, if_false]
    have h2 : 2 ≤ xs.length := by omega
    have ha := hmem (xs.length / 2 - 1) (by omega)
    have hb := hmem (xs.length / 2) (by omega)
    constructor
    · have h1 := listMin_le_mem xs _ ha
      have h2 := listMin_le_mem xs _ hb
      linarith
    · have h1 := mem_le_listMax xs _ ha
      have h2 := mem_le_listMax xs _ hb
      linarith

theorem sampleVariance_nonneg (xs : List ℚ) : 0 ≤ sampleVariance xs := by
  have hsum : 0 ≤ (List.map (fun x => (x - mean xs) ^ 2) xs).sum := by
    apply List.sum_nonneg
    intro q hq
    obtain ⟨x, _, hx⟩ := List.mem_map.mp hq
    rw [← hx]
    positivity
  rw [sampleVariance]
  rcases le_or_lt ((xs.length : ℚ) - 1) 0 with h | h
  · have h01 : xs.length = 0 ∨ xs.length = 1 := by
      have h1 : (xs.length : ℚ) ≤ 1 := by linarith
      have h2 : xs.length ≤ 1 := by exact_mod_cast h1
      omega
    rcases h01 with h0 | h0
    · have hxe : xs = [] := List.length_eq_zero.mp h0
      subst hxe
      simp
    · rw [h0]
      norm_num
  · exact div_nonneg hsum (le_of_lt h)

theorem stdDev_nonneg (xs : List ℚ) : 0 ≤ stdDev xs := by
  rw [stdDev]
  split
  · exact Real.sqrt_nonneg _
  · exact le_refl 0

/-! ### Helper lemmas about the request pipeline -/

theorem analyzeClean_eq (request : List FloatVal) :
    analyzeClean request =
      (if request = [] then
        .error ⟨.invalid_argument, "No values provided for analysis"⟩
      else if cleanValues request = [] then
        .error ⟨.invalid_argument, "No valid values found after cleaning data"⟩
      else .ok (cleanValues request)) := by
  rw [analyzeClean]
  simp only [List.isEmpty_iff]

theorem analyze_ok_iff (request : List FloatVal) (r : Response) :
    AnalyzeSensorData request = .ok r ↔
      (request ≠ [] ∧ cleanValues request ≠ [] ∧ r = mkResponse (cleanValues request)) := by
  rw [AnalyzeSensorData, analyzeClean_eq]
  rcases eq_or_ne request [] with h1 | h1
  · simp [h1, Except.map]
  · rcases eq_or_ne (cleanValues request) [] with h2 | h2
    · simp [h1, h2, Except.map]
    · simp only [if_neg h1, if_neg h2, Except.map]
      constructor
      · intro h
        injection h with h
        exact ⟨h1, h2, h.symm⟩
      · rintro ⟨-, -, rfl⟩
        rfl

theorem analyze_error_iff (request : List FloatVal) (e : AnalysisError) :
    AnalyzeSensorData request = .error e ↔
      ((request = [] ∧ e = ⟨.invalid_argument, "No values provided for analysis"⟩) ∨
        (request ≠ [] ∧ cleanValues request = [] ∧
          e = ⟨.invalid_argument, "No valid values found after cleaning data"⟩)) := by
  rw [AnalyzeSensorData, analyzeClean_eq]
  rcases eq_or_ne request [] with h1 | h1
  · subst h1
    rw [if_pos rfl]
    constructor
    · intro h
      injection h with h
      exact Or.inl ⟨rfl, h.symm⟩
    · rintro (⟨-, rfl⟩ | ⟨hne, -, -⟩)
      · rfl
      · exact absurd rfl hne
  · rw [if_neg h1]
    rcases eq_or_ne (cleanValues request) [] with h2 | h2
    · rw [if_pos h2]
      constructor
      · intro h
        injection h with h
        exact Or.inr ⟨h1, h2, h.symm⟩
      · rintro (⟨he, -⟩ | ⟨-, -, rfl⟩)
        · exact absurd he h1
        · rfl
    · rw [if_neg h2]
      constructor
      · intro h
        simp [Except.map] at h
      · rintro (⟨he, -⟩ | ⟨-, he, -⟩)
        · exact absurd he h1
        · exact absurd he h2

theorem filter_bool_length (p : FloatVal → Bool) (vs : List FloatVal) :
    (vs.filter (fun v => !(p v))).length + (vs.filter p).length = vs.length := by
  induction vs with
  | nil => rfl
  | cons v vs ih =>
    rw [List.filter_cons, List.filter_cons]
    cases h : p v
    · rw [if_pos (by simp [h]), if_neg (by simp [h])]
      simp only [List.length_cons]
      omega
    · rw [if_neg (by simp [h]), if_pos (by simp [h])]
      simp only [List.length_cons]
      omega

theorem quality_step3_pos (len : ℕ) (x : ℚ) (hx : 0 < x) :
    0 < (if len < 10 then x * (7 / 10) else if len < 5 then x * (2 / 5) else x) := by
  split_ifs <;> positivity

theorem quality_step4_pos (len : ℕ) (x : ℚ) (hx : 0 < x) :
    0 < (if 100 ≤ len then min 10 (x * (11 / 10)) else x) := by
  split_ifs
  · exact lt_min (by norm_num) (by positivity)
  · exact hx

theorem quality_clamp_pos (x : ℚ) (hx : 0 < x) : 0 < max 0 (min 10 x) :=
  lt_of_lt_of_le (lt_min (by norm_num) hx) (le_max_right 0 _)

theorem calculate_data_quality_pos (values : List ℚ) (oc : ℕ) (h : values ≠ []) :
    0 < calculate_data_quality values oc := by
  have hlen : 0 < (values.length : ℚ) := by
    exact_mod_cast List.length_pos.mpr h
  have hs2 : 0 < (if 0 < oc then (10 : ℚ) * ((values.length : ℚ) / (oc : ℚ)) else (10 : ℚ)) := by
    split_ifs with hoc
    · have hoc' : (0 : ℚ) < (oc : ℚ) := by exact_mod_cast hoc
      positivity
    · norm_num
  simp only [calculate_data_quality]
  exact quality_clamp_pos _ (quality_step4_pos _ _ (quality_step3_pos _ _ hs2))

/-! ### Claim theorems -/

/-- C1: `AnalyzeSensorData` fails with an InvalidArgument error exactly when the
request's values sequence is empty or reduces to empty after cleaning; for every
other input it produces a statistics response, and success and failure are
mutually exclusive — a failing call never also yields a result. -/
theorem analyze_failure_characterisation (request : List FloatVal) :
    ((∃ e, AnalyzeSensorData request = .error e ∧ e.kind = .invalid_argument) ↔
      (request = [] ∨ cleanValues request = []))
    ∧ ((∃ r, AnalyzeSensorData request = .ok r) ↔
      ¬(request = [] ∨ cleanValues request = []))
    ∧ ¬((∃ e, AnalyzeSensorData request = .error e) ∧
        (∃ r, AnalyzeSensorData request = .ok r)) := by
  refine ⟨⟨?_, ?_⟩, ⟨?_, ?_⟩, ?_⟩
  · rintro ⟨e, he, -⟩
    rcases (analyze_error_iff request e).mp he with ⟨h1, -⟩ | ⟨-, h2, -⟩
    · exact Or.inl h1
    · exact Or.inr h2
  · intro hcase
    rcases eq_or_ne request [] with h1 | h1
    · exact ⟨_, (analyze_error_iff request _).mpr (Or.inl ⟨h1, rfl⟩), rfl⟩
    · have h2 : cleanValues request = [] := by tauto
      exact ⟨_, (analyze_error_iff request _).mpr (Or.inr ⟨h1, h2, rfl⟩), rfl⟩
  · rintro ⟨r, hr⟩
    obtain ⟨h1, h2, -⟩ := (analyze_ok_iff request r).mp hr
    tauto
  · intro hn
    push_neg at hn
    exact ⟨mkResponse (cleanValues request),
      (analyze_ok_iff request _).mpr ⟨hn.1, hn.2, rfl⟩⟩
  · rintro ⟨⟨e, he⟩, ⟨r, hr⟩⟩
    rw [he] at hr
    exact Except.noConfusion hr

theorem analyze_failure_characterisation_witness :
    ∃ e, AnalyzeSensorData [] = .error e ∧ e.kind = .invalid_argument :=
  (analyze_failure_characterisation []).1.mpr (Or.inl rfl)

/-- C2 counterexample: the cleaned batch [5, 7] has count 2, which is below 5,
yet with original count 4 the code computes the score 3.5 = 10 * (2/4) * 0.7,
not the 10 * (2/4) * 0.4 = 2 that the claimed 0.4 factor would give. -/
theorem quality_small_batch_uses_seven_tenths :
    calculate_data_quality [5, 7] 4 = 7 / 2
    ∧ (7 / 2 : ℚ) ≠ 10 * (2 / 4) * (2 / 5) := by
  constructor
  · norm_num [calculate_data_quality]
  · norm_num

/-- C2 amended: for every batch whose cleaned count is below 10 — which includes
every cleaned count below 5 — the small-sample factor applied is 0.7; the 0.4
branch is unreachable because the `len < 10` test is checked first. -/
theorem quality_small_batch_factor (values : List ℚ) (original_count : ℕ)
    (h : values.length < 10) :
    calculate_data_quality values original_count
      = max 0 (min 10 ((if 0 < original_count then
          (10 : ℚ) * ((values.length : ℚ) / (original_count : ℚ)) else (10 : ℚ)) * (7 / 10))) := by
  simp only [calculate_data_quality]
  rw [if_neg (by omega : ¬100 ≤ values.length), if_pos h]

theorem quality_small_batch_factor_witness :
    ([5, 7] : List ℚ).length < 10
    ∧ calculate_data_quality [5, 7] 4
      = max 0 (min 10 ((if 0 < (4 : ℕ) then
          (10 : ℚ) * ((([5, 7] : List ℚ).length : ℚ) / ((4 : ℕ) : ℚ)) else (10 : ℚ)) * (7 / 10))) :=
  ⟨by norm_num, quality_small_batch_factor [5, 7] 4 (by norm_num)⟩

/-- C3 counterexample: for the batch [10, 20, 30, NaN] the call succeeds and the
computed quality score is 5.25, yet no field of the wire response equals 5.25 —
the response does not carry the quality score. -/
theorem quality_score_not_in_response :
    AnalyzeSensorData [.finite 10, .finite 20, .finite 30, .nan]
      = .ok (mkResponse [10, 20, 30])
    ∧ analysisQuality [.finite 10, .finite 20, .finite 30, .nan] = 21 / 4
    ∧ ((21 / 4 : ℚ) : ℝ) ∉ responseValues (mkResponse [10, 20, 30]) := by
  have hclean : cleanValues [FloatVal.finite 10, .finite 20, .finite 30, .nan]
      = [10, 20, 30] := rfl
  refine ⟨?_, ?_, ?_⟩
  · rw [analyze_ok_iff]
    exact ⟨by simp, by rw [hclean]; simp, by rw [hclean]⟩
  · rw [analysisQuality, hclean]
    norm_num [calculate_data_quality]
  · have havg : (mkResponse [(10:ℚ), 20, 30]).average = 20 := by
      show mean [(10:ℚ), 20, 30] = 20
      norm_num [mean]
    have hmin : (mkResponse [(10:ℚ), 20, 30]).min = 10 := by
      show listMin [(10:ℚ), 20, 30] = 10
      norm_num [listMin, List.foldl, min_def]
    have hmax : (mkResponse [(10:ℚ), 20, 30]).max = 30 := by
      show listMax [(10:ℚ), 20, 30] = 30
      norm_num [listMax, List.foldl, max_def]
    have hmed : (mkResponse [(10:ℚ), 20, 30]).median = 20 := by
      show median [(10:ℚ), 20, 30] = 20
      decide
    have hcount : (mkResponse [(10:ℚ), 20, 30]).count = 3 := rfl
    have hvar : sampleVariance [(10:ℚ), 20, 30] = 100 := by
      norm_num [sampleVariance, mean]
    have hstd : (mkResponse [(10:ℚ), 20, 30]).std_dev = 10 := by
      show stdDev [(10:ℚ), 20, 30] = 10
      rw [stdDev, if_pos (by norm_num), hvar]
      rw [show ((100:ℚ):ℝ) = 10 ^ 2 by norm_num]
      exact Real.sqrt_sq (by norm_num)
    rw [responseValues, havg, hmin, hmax, hmed, hcount, hstd]
    intro hmem
    simp only [List.mem_cons, List.not_mem_nil, or_false] at hmem
    rcases hmem with h | h | h | h | h | h <;> norm_num at h

/-- C3 amended: every successful response carries exactly the six statistical
fields — average, min, max, std_dev, count and median of the cleaned batch; the
quality score is computed separately and is not part of the wire response. -/
theorem response_carries_six_statistics (request : List FloatVal) (r : Response)
    (h : AnalyzeSensorData request = .ok r) :
    responseValues r
      = [((mean (cleanValues request) : ℚ) : ℝ),
        ((listMin (cleanValues request) : ℚ) : ℝ),
        ((listMax (cleanValues request) : ℚ) : ℝ),
        stdDev (cleanValues request),
        (((cleanValues request).length : ℕ) : ℝ),
        ((median (cleanValues request) : ℚ) : ℝ)] := by
  obtain ⟨-, -, rfl⟩ := (analyze_ok_iff request r).mp h
  rfl

theorem response_carries_six_statistics_witness :
    responseValues (mkResponse (cleanValues [FloatVal.finite 1]))
      = [((mean (cleanValues [FloatVal.finite 1]) : ℚ) : ℝ),
        ((listMin (cleanValues [FloatVal.finite 1]) : ℚ) : ℝ),
        ((listMax (cleanValues [FloatVal.finite 1]) : ℚ) : ℝ),
        stdDev (cleanValues [FloatVal.finite 1]),
        (((cleanValues [FloatVal.finite 1]).length : ℕ) : ℝ),
        ((median (cleanValues [FloatVal.finite 1]) : ℚ) : ℝ)] :=
  response_carries_six_statistics [FloatVal.finite 1] _
    ((analyze_ok_iff _ _).mpr ⟨by simp, by decide, rfl⟩)

/-- C4: for every batch that passes both validation checks, the returned average
is the arithmetic mean of the cleaned values (it reproduces their sum), min and
max are their extrema, count is the cleaned length, and the median is the
standard statistical median read off any sorted rearrangement. -/
theorem analyze_statistics_correct (request : List FloatVal) (r : Response)
    (h : AnalyzeSensorData request = .ok r) :
    r.average * ((cleanValues request).length : ℚ) = (cleanValues request).sum
    ∧ (r.min ∈ cleanValues request ∧ ∀ y ∈ cleanValues request, r.min ≤ y)
    ∧ (r.max ∈ cleanValues request ∧ ∀ y ∈ cleanValues request, y ≤ r.max)
    ∧ r.count = (cleanValues request).length
    ∧ (∀ s : List ℚ, s.Perm (cleanValues request) → s.Sorted (· ≤ ·) →
        r.median = (if (cleanValues request).length % 2 = 1 then
            s.getD ((cleanValues request).length / 2) 0
          else (s.getD ((cleanValues request).length / 2 - 1) 0
            + s.getD ((cleanValues request).length / 2) 0) / 2)) := by
  obtain ⟨-, h2, rfl⟩ := (analyze_ok_iff request r).mp h
  have hlen : ((cleanValues request).length : ℚ) ≠ 0 := by
    have := List.length_pos.mpr h2
    positivity
  refine ⟨?_, ⟨?_, ?_⟩, ⟨?_, ?_⟩, rfl, ?_⟩
  · show mean (cleanValues request) * _ = _
    rw [mean, div_mul_cancel₀ _ hlen]
  · exact listMin_mem _ h2
  · exact fun y hy => listMin_le_mem _ y hy
  · exact listMax_mem _ h2
  · exact fun y hy => mem_le_listMax _ y hy
  · exact fun s hp hs => median_eq_of_sorted _ s hp hs

theorem analyze_statistics_correct_witness :
    (mkResponse [(3:ℚ), 1, 2]).count = 3
    ∧ (mkResponse [(3:ℚ), 1, 2]).median = 2 := by
  have h : AnalyzeSensorData [.finite 3, .finite 1, .finite 2]
      = .ok (mkResponse [3, 1, 2]) := by
    rw [analyze_ok_iff]
    exact ⟨by simp, by decide, rfl⟩
  obtain ⟨-, -, -, hc, hm⟩ := analyze_statistics_correct _ _ h
  refine ⟨hc.trans (by decide), ?_⟩
  have := hm [1, 2, 3] (by decide) (by decide)
  exact this.trans (by decide)

/-- C5: for every batch that passes validation, the standard deviation is the
sample standard deviation with divisor n-1 when the cleaned count exceeds 1
(characterised by its square recovering the sum of squared deviations), and is
exactly 0 when the cleaned count is 1 — never an error or an undefined value. -/
theorem analyze_std_dev_spec (request : List FloatVal) (r : Response)
    (h : AnalyzeSensorData request = .ok r) :
    (r.count = 1 → r.std_dev = 0)
    ∧ (1 < r.count →
        0 ≤ r.std_dev
        ∧ r.std_dev ^ 2 * ((r.count : ℝ) - 1)
          = ((((cleanValues request).map
              (fun x => (x - mean (cleanValues request)) ^ 2)).sum : ℚ) : ℝ)) := by
  obtain ⟨-, -, rfl⟩ := (analyze_ok_iff request r).mp h
  constructor
  · intro hc
    have hc' : (cleanValues request).length = 1 := hc
    show stdDev (cleanValues request) = 0
    rw [stdDev, if_neg (by omega)]
  · intro hc
    have hc' : 1 < (cleanValues request).length := hc
    have hnn := sampleVariance_nonneg (cleanValues request)
    have hnnR : (0:ℝ) ≤ ((sampleVariance (cleanValues request) : ℚ) : ℝ) := by
      exact_mod_cast hnn
    have hsd : (mkResponse (cleanValues request)).std_dev
        = Real.sqrt ((sampleVariance (cleanValues request) : ℚ) : ℝ) := by
      show stdDev (cleanValues request) = _
      rw [stdDev, if_pos hc']
    have hneR : (((cleanValues request).length : ℝ) - 1) ≠ 0 := by
      have : (1:ℝ) < ((cleanValues request).length : ℝ) := by exact_mod_cast hc'
      linarith
    constructor
    · rw [hsd]
      exact Real.sqrt_nonneg _
    · rw [hsd, Real.sq_sqrt hnnR]
      show ((sampleVariance (cleanValues request) : ℚ) : ℝ)
          * (((cleanValues request).length : ℝ) - 1) = _
      rw [sampleVariance]
      push_cast
      rw [div_mul_cancel₀ _ hneR]

theorem analyze_std_dev_spec_witness :
    (mkResponse [(5:ℚ)]).std_dev = 0 := by
  have h : AnalyzeSensorData [.finite 5] = .ok (mkResponse [5]) := by
    rw [analyze_ok_iff]
    exact ⟨by simp, by decide, rfl⟩
  exact (analyze_std_dev_spec _ _ h).1 (by decide)

/-- C6: every successful result satisfies min ≤ average ≤ max and
min ≤ median ≤ max, and its standard deviation is non-negative. -/
theorem analyze_result_bounds (request : List FloatVal) (r : Response)
    (h : AnalyzeSensorData request = .ok r) :
    r.min ≤ r.average ∧ r.average ≤ r.max
    ∧ r.min ≤ r.median ∧ r.median ≤ r.max
    ∧ 0 ≤ r.std_dev := by
  obtain ⟨-, h2, rfl⟩ := (analyze_ok_iff request r).mp h
  obtain ⟨hm1, hm2⟩ := mean_bounds _ h2
  obtain ⟨hd1, hd2⟩ := median_bounds _ h2
  exact ⟨hm1, hm2, hd1, hd2, stdDev_nonneg _⟩

theorem analyze_result_bounds_witness :
    (mkResponse [(1:ℚ), 2]).min ≤ (mkResponse [(1:ℚ), 2]).average
    ∧ 0 ≤ (mkResponse [(1:ℚ), 2]).std_dev := by
  have h : AnalyzeSensorData [.finite 1, .finite 2] = .ok (mkResponse [1, 2]) := by
    rw [analyze_ok_iff]
    exact ⟨by simp, by decide, rfl⟩
  obtain ⟨hb, -, -, -, hs⟩ := analyze_result_bounds _ _ h
  exact ⟨hb, hs⟩

/-- C7: cleaning maps every input sequence to exactly the order-preserving
subsequence of its finite values — zero, negative and extreme-but-finite values
are retained, only NaN and the infinities are removed — and the cleaned count
plus the discarded count equals the original length. -/
theorem cleaning_is_finite_subsequence (values : List FloatVal) :
    List.Sublist (cleanFloats values) values
    ∧ (∀ v ∈ cleanFloats values, v ≠ .nan ∧ v ≠ .posInf ∧ v ≠ .negInf)
    ∧ (∀ v ∈ values, v ≠ .nan → v ≠ .posInf → v ≠ .negInf → v ∈ cleanFloats values)
    ∧ (cleanValues values).length + discarded values = values.length := by
  refine ⟨List.filter_sublist values, ?_, ?_, ?_⟩
  · intro v hv
    have hp := List.of_mem_filter hv
    cases v <;> simp_all [FloatVal.isnan, FloatVal.isinf]
  · intro v hv h1 h2 h3
    refine List.mem_filter.mpr ⟨hv, ?_⟩
    cases v <;> simp_all [FloatVal.isnan, FloatVal.isinf]
  · rw [cleanValues, List.length_map, cleanFloats, discarded]
    exact filter_bool_length (fun v => v.isnan || v.isinf) values

theorem cleaning_is_finite_subsequence_witness :
    (cleanValues [FloatVal.finite 2, FloatVal.nan]).length
      + discarded [FloatVal.finite 2, FloatVal.nan]
      = ([FloatVal.finite 2, FloatVal.nan] : List FloatVal).length :=
  (cleaning_is_finite_subsequence [FloatVal.finite 2, FloatVal.nan]).2.2.2

/-- C8: scenario B — the request [5, NaN, 7, Infinity] cleans to [5, 7] and
succeeds with average 6, median 6, min 5, max 7, count 2, and the computed
quality score equals 10 * (2/4) * 0.7 = 3.5. -/
theorem scenario_b_values :
    AnalyzeSensorData [.finite 5, .nan, .finite 7, .posInf] = .ok (mkResponse [5, 7])
    ∧ (mkResponse [(5:ℚ), 7]).average = 6
    ∧ (mkResponse [(5:ℚ), 7]).median = 6
    ∧ (mkResponse [(5:ℚ), 7]).min = 5
    ∧ (mkResponse [(5:ℚ), 7]).max = 7
    ∧ (mkResponse [(5:ℚ), 7]).count = 2
    ∧ analysisQuality [.finite 5, .nan, .finite 7, .posInf] = 10 * (2 / 4) * (7 / 10) := by
  have hclean : cleanValues [FloatVal.finite 5, .nan, .finite 7, .posInf] = [5, 7] := rfl
  refine ⟨?_, ?_, ?_, rfl, rfl, rfl, ?_⟩
  · rw [analyze_ok_iff]
    exact ⟨by simp, by rw [hclean]; simp, by rw [hclean]⟩
  · show mean [(5:ℚ), 7] = 6
    norm_num [mean]
  · show median [(5:ℚ), 7] = 6
    norm_num [median, List.insertionSort, List.orderedInsert]
  · rw [analysisQuality, hclean]
    norm_num [calculate_data_quality]

/-- C9: for every cleaned batch and original count, the computed quality score
lies in the closed interval [0, 10]. -/
theorem quality_score_bounded (values : List ℚ) (original_count : ℕ) :
    0 ≤ calculate_data_quality values original_count
    ∧ calculate_data_quality values original_count ≤ 10 := by
  simp only [calculate_data_quality]
  exact ⟨le_max_left 0 _, max_le (by norm_num) (min_le_left 10 _)⟩

theorem quality_score_bounded_witness :
    0 ≤ calculate_data_quality [1] 1 ∧ calculate_data_quality [1] 1 ≤ 10 :=
  quality_score_bounded [1] 1

/-- C10: for every batch that passes both validation checks — the cleaned batch
is non-empty — the computed quality score is strictly positive; the lower clamp
at 0 never binds. -/
theorem quality_score_positive (request : List FloatVal)
    (h : cleanValues request ≠ []) :
    0 < analysisQuality request := by
  rw [analysisQuality]
  exact calculate_data_quality_pos _ _ h

theorem quality_score_positive_witness :
    cleanValues [FloatVal.finite 1] ≠ []
    ∧ 0 < analysisQuality [FloatVal.finite 1] :=
  ⟨by decide, quality_score_positive [FloatVal.finite 1] (by decide)⟩

end OceanAnalysis
